import Mathlib

/-!
Verification of the markdown-to-docx converter (`md_to_docx_converter.py`)
against its design specification.  The Python source is shallowly embedded:
strings are `List Char` / `String`, the parsed markup tree is `Node`, the
output document is a list of `Paragraph`s, and the fallible file-system and
collaborator calls are oracles returning `Except PyExn`.
-/

/-- Whitespace test used by Python's `\s` regex class (for `str` patterns)
and by `str.strip()`: the six ASCII whitespace characters together with the
Unicode whitespace code points. -/
def isPySpace (c : Char) : Bool :=
  c = ' ' || c = '\t' || c = '\n' || c = '\r' || c = '\x0b' || c = '\x0c' ||
  c = '\x1c' || c = '\x1d' || c = '\x1e' || c = '\x1f' || c = '\x85' || c = '\xa0' ||
  c = ' ' || (0x2000 ≤ c.toNat && c.toNat ≤ 0x200a) ||
  c = ' ' || c = ' ' || c = ' ' || c = ' ' || c = '　'

/-- Embedding of `re.sub(r'\s+', ' ', text)`: every maximal run of
whitespace characters is replaced by a single space.  The boolean argument
records whether the previously scanned character was part of a whitespace
run. -/
def collapseWsAux : Bool → List Char → List Char
  | _, [] => []
  | prevWs, c :: rest =>
    if isPySpace c then
      if prevWs then collapseWsAux true rest
      else ' ' :: collapseWsAux true rest
    else c :: collapseWsAux false rest

/-- Embedding of `re.sub(r'\s+', ' ', text)`. -/
def collapseWs (l : List Char) : List Char := collapseWsAux false l

/-- Embedding of `str.strip()`: drop whitespace from both ends. -/
def pyStrip (l : List Char) : List Char :=
  ((l.dropWhile isPySpace).reverse.dropWhile isPySpace).reverse

/-- Worker for `pyReplace`.  The counter skips characters of the input that
were consumed by a pattern occurrence that has already been replaced; this
keeps the recursion structural in the scanned list. -/
def pyReplaceGo (old new : List Char) : List Char → Nat → List Char
  | [], _ => []
  | _ :: rest, skip + 1 => pyReplaceGo old new rest skip
  | c :: rest, 0 =>
    if old ≠ [] ∧ old.isPrefixOf (c :: rest) = true then
      new ++ pyReplaceGo old new rest (old.length - 1)
    else
      c :: pyReplaceGo old new rest 0

/-- Embedding of Python `text.replace(old, new)` for a non-empty pattern
`old`: replace every occurrence, scanning left to right, non-overlapping.
(Python's behaviour for an empty pattern is not modelled; every call in the
source passes a non-empty literal.) -/
def pyReplace (old new s : List Char) : List Char := pyReplaceGo old new s 0

example : pyReplace ['-', '-'] ['X'] ['-', '-', '-'] = ['X', '-'] := by decide
example : pyReplace ['a', 'a'] ['a'] ['a', 'a', 'a'] = ['a', 'a'] := by decide

/-- Greatest index `j` such that `l[j] = '\n'` and all of `l[0..j]` is
whitespace: the end of the greedy `\s*\n` tail of a `\n\s*\n` regex match. -/
def lastNlInWsRun : List Char → Option Nat
  | [] => none
  | c :: rest =>
    if isPySpace c then
      match lastNlInWsRun rest with
      | some j => some (j + 1)
      | none => if c = '\n' then some 0 else none
    else none

/-- Worker for `subBlankLines`; the counter skips input characters already
consumed by a replaced match, keeping the recursion structural. -/
def subBlankLinesGo : List Char → Nat → List Char
  | [], _ => []
  | _ :: rest, skip + 1 => subBlankLinesGo rest skip
  | c :: rest, 0 =>
    if c = '\n' then
      match lastNlInWsRun rest with
      | some j => '\n' :: subBlankLinesGo rest (j + 1)
      | none => c :: subBlankLinesGo rest 0
    else c :: subBlankLinesGo rest 0

/-- Embedding of `re.sub(r'\n\s*\n', '\n', text)`: each leftmost match — a
newline, a greedy run of whitespace, and a final newline — collapses to a
single newline. -/
def subBlankLines (s : List Char) : List Char := subBlankLinesGo s 0

example : subBlankLines ['\n', ' ', '\n', ' ', '\n'] = ['\n'] := by decide
example : subBlankLines ['\n', 'a', '\n', '\n'] = ['\n', 'a', '\n'] := by decide

/-- Literal first argument of the `replace` call on the apostrophe line of
`clean_text`.  The source line
`text = text.replace(''', "'").replace(''', "'")`
is parsed by Python with `'''` opening a triple-quoted string, so the line
is a single call `text.replace(<this 15-character string>, "'")`. -/
def quoteLineOld : List Char :=
  [',', ' ', '"', '\'', '"', ')', '.', 'r', 'e', 'p', 'l', 'a', 'c', 'e', '(']

/-- Embedding of `clean_text` on character lists, step for step:
whitespace collapse, strip, the two double-quote self-replacements, the
(mangled) apostrophe replacement, dash replacement (`--` to U+2013), and
blank-line collapse. -/
def cleanTextList (text : List Char) : List Char :=
  let t1 := collapseWs text
  let t2 := pyStrip t1
  let t3 := pyReplace ['"'] ['"'] (pyReplace ['"'] ['"'] t2)
  let t4 := pyReplace quoteLineOld ['\''] t3
  let t5 := pyReplace ['-', '-'] ['–'] t4
  subBlankLines t5

/-- Embedding of `clean_text`. -/
def clean_text (text : String) : String := String.mk (cleanTextList text.data)

example : clean_text "  a   b  " = "a b" := by decide
example : clean_text "--" = "–" := by decide

/-- Shallow embedding of the parsed markup tree (`BeautifulSoup` nodes): a
node is either a raw text node (`element.name is None`, whose `.string` is
the text itself) or a tag element with a name and its direct children. -/
inductive Node where
  | text (s : String)
  | elem (name : String) (children : List Node)
deriving Repr

mutual

/-- Embedding of `element.get_text()`: the concatenation of every string
descendant, in document order. -/
def getText : Node → String
  | .text s => s
  | .elem _ children => getTextList children

/-- Concatenated text of a list of sibling nodes. -/
def getTextList : List Node → String
  | [] => ""
  | n :: rest => getText n ++ getTextList rest

end

example : getText (Node.elem "ul" [Node.elem "li" [Node.text "a"], Node.text "b"]) = "ab" := by
  decide

/-- Text run: a span of characters with optional font overrides, as set by
`add_run` / `add_paragraph` plus the `run.font.*` and `run.italic`
assignments in the source. -/
structure Run where
  text : String
  fontName : Option String := none
  fontSizePt : Option Nat := none
  italic : Bool := false
deriving Repr, DecidableEq

/-- Paragraph-level formatting set through `p.paragraph_format.*`:
indents in points and the alignment code (`1` = CENTER). -/
structure ParagraphFormat where
  leftIndentPt : Option Nat := none
  rightIndentPt : Option Nat := none
  alignment : Option Nat := none
deriving Repr, DecidableEq

/-- One appended paragraph of the output document: assigned style name,
runs, and paragraph formatting.  `python-docx` gives a paragraph created
without an explicit style the default style `Normal`. -/
structure Paragraph where
  style : String
  runs : List Run
  paragraph_format : ParagraphFormat := {}
deriving Repr, DecidableEq

/-- Tag names treated as headings by the mapper. -/
def headingNames : List String := ["h1", "h2", "h3", "h4", "h5", "h6"]

/-- Numeric value of a digit character; models Python `int(ch)` on the
single character `element.name[1]` of a heading tag name. -/
def digitVal (c : Char) : Nat := c.toNat - 48

/-- Embedding of `find_all('li', recursive=False)`: the direct children
that are `li` elements. -/
def directLis (children : List Node) : List Node :=
  children.filter fun n =>
    match n with
    | .elem "li" _ => true
    | _ => false

/-- Paragraphs appended by one iteration of the `process_html_to_docx`
loop, branch for branch: raw text nodes are skipped when their string is
whitespace-only before normalization, every element branch normalizes its
extracted text with `clean_text` and skips the node when the result is
empty, except the `hr` branch, which always appends its synthesized rule
paragraph; unrecognized tags append nothing. -/
def processElement (element : Node) : List Paragraph :=
  match element with
  | .text s =>
    if pyStrip s.data = [] then []
    else
      let text := clean_text s
      if text ≠ "" then [{ style := "Normal", runs := [{ text := text }] }]
      else []
  | .elem name children =>
    if name ∈ headingNames then
      let level := digitVal (name.data.getD 1 '0')
      let text := clean_text (getTextList children)
      if text ≠ "" then
        [{ style := "Heading " ++ toString level, runs := [{ text := text }] }]
      else []
    else if name = "p" then
      let text := clean_text (getTextList children)
      if text ≠ "" then [{ style := "Normal", runs := [{ text := text }] }]
      else []
    else if name = "ul" ∨ name = "ol" then
      (directLis children).foldr
        (fun li acc =>
          (let text := clean_text (getText li)
           if text ≠ "" then
             [{ style := if name = "ul" then "List Bullet" else "List Number",
                runs := [{ text := text }],
                paragraph_format := { leftIndentPt := some 36 } }]
           else []) ++ acc)
        []
    else if name = "blockquote" then
      let text := clean_text (getTextList children)
      if text ≠ "" then
        [{ style := "Quote", runs := [{ text := text, italic := true }],
           paragraph_format := { leftIndentPt := some 48 } }]
      else []
    else if name = "pre" then
      let text := clean_text (getTextList children)
      if text ≠ "" then
        [{ style := "No Spacing",
           runs := [{ text := text, fontName := some "Courier New", fontSizePt := some 10 }],
           paragraph_format := { leftIndentPt := some 36, rightIndentPt := some 36 } }]
      else []
    else if name = "hr" then
      [{ style := "Normal",
         runs := [{ text := String.mk (List.replicate 30 '─'), fontSizePt := some 12 }],
         paragraph_format := { alignment := some 1 } }]
    else []

/-- Embedding of `process_html_to_docx(soup, doc)`: iterate the top-level
children once in order, appending each node's paragraphs to the document. -/
def process_html_to_docx : List Node → List Paragraph → List Paragraph
  | [], doc => doc
  | element :: rest, doc => process_html_to_docx rest (doc ++ processElement element)

example :
    process_html_to_docx
      [Node.elem "h1" [Node.text "Title"], Node.elem "p" [Node.text "Some  text."]] [] =
      [{ style := "Heading 1", runs := [{ text := "Title" }] },
       { style := "Normal", runs := [{ text := "Some text." }] }] := by decide

example :
    process_html_to_docx [Node.elem "hr" []] [] =
      [{ style := "Normal",
         runs := [{ text := String.mk (List.replicate 30 '─'), fontSizePt := some 12 }],
         paragraph_format := { alignment := some 1 } }] := by decide

/-- Python exception classes relevant to the converter: `osError` covers
`OSError` (and its alias `IOError`), the class caught by
`convert_md_to_docx`; `otherError` is any other exception, e.g. one raised
by the markdown or HTML-parsing collaborators. -/
inductive PyExn where
  | osError (msg : String)
  | otherError (msg : String)
deriving Repr, DecidableEq

/-- Last index of `c` in `l`, or `-1` when absent; models `str.rfind`. -/
def rfindChar (l : List Char) (c : Char) : Int :=
  match l.reverse.findIdx? (fun d => d = c) with
  | some j => (l.length : Int) - 1 - j
  | none => -1

/-- Embedding of POSIX `os.path.splitext`: split at the last dot that lies
after the last separator, unless every character between the separator and
that dot is itself a dot (so leading dots of the base name never start an
extension). -/
def splitextList (p : List Char) : List Char × List Char :=
  let sepIndex := rfindChar p '/'
  let dotIndex := rfindChar p '.'
  if sepIndex < dotIndex then
    let base := (p.drop (sepIndex + 1).toNat).take (dotIndex - sepIndex - 1).toNat
    if base.any (fun c => c ≠ '.') then
      (p.take dotIndex.toNat, p.drop dotIndex.toNat)
    else (p, [])
  else (p, [])

/-- Embedding of `os.path.splitext` on strings. -/
def splitext (p : String) : String × String :=
  let r := splitextList p.data
  (String.mk r.1, String.mk r.2)

/-- Embedding of POSIX `os.path.basename`. -/
def basename (p : String) : String :=
  String.mk (p.data.drop (rfindChar p.data '/' + 1).toNat)

/-- Embedding of POSIX `os.path.dirname`: everything up to the last
separator, with trailing separators stripped unless the result is all
separators. -/
def dirname (p : String) : String :=
  let head := p.data.take (rfindChar p.data '/' + 1).toNat
  if head ≠ [] ∧ head.any (fun c => c ≠ '/') then
    String.mk ((head.reverse.dropWhile (fun c => c = '/')).reverse)
  else String.mk head

/-- Embedding of POSIX `os.path.join` for two components. -/
def joinPath (a b : String) : String :=
  if b.data.head? = some '/' then b
  else if a.data = [] ∨ a.data.getLast? = some '/' then String.mk (a.data ++ b.data)
  else String.mk (a.data ++ '/' :: b.data)

example : splitext "note.md" = ("note", ".md") := by decide
example : splitext ".bashrc" = (".bashrc", "") := by decide
example : splitext "a.b/c" = ("a.b/c", "") := by decide
example : basename "docs/note.md" = "note.md" := by decide
example : dirname "docs/note.md" = "docs" := by decide
example : dirname "note.md" = "" := by decide
example : joinPath "out" "note.docx" = "out/note.docx" := by decide
example : joinPath "out/" "note.docx" = "out/note.docx" := by decide

instance {ε α : Type} [DecidableEq ε] [DecidableEq α] : DecidableEq (Except ε α) := fun x y =>
  match x, y with
  | .ok a, .ok b => decidable_of_iff (a = b) ⟨fun h => h ▸ rfl, fun h => by injection h⟩
  | .error a, .error b => decidable_of_iff (a = b) ⟨fun h => h ▸ rfl, fun h => by injection h⟩
  | .ok _, .error _ => isFalse fun h => Except.noConfusion h
  | .error _, .ok _ => isFalse fun h => Except.noConfusion h

/-- File-system and document-library oracle: results of the external calls
`open(...).read()`, `os.path.isdir`, `os.makedirs`, `doc.save` and
`os.listdir` during one run. -/
structure FS where
  readFile : String → Except PyExn String
  isdir : String → Bool
  makedirs : String → Except PyExn Unit
  save : String → Except PyExn Unit
  listdir : String → List String

/-- Observable outcome of `convert_md_to_docx`: the returned boolean or
the uncaught propagated exception, the messages printed, and the
successfully saved documents (path and contents). -/
structure ConvResult where
  result : Except PyExn Bool
  printed : List String
  saved : List (String × List Paragraph)
deriving Repr, DecidableEq

/-- Outcome of the `except (IOError, OSError)` clause: an `OSError` is
caught, a diagnostic naming the input file and the cause is printed, and
`False` is returned; any other exception propagates. -/
def convFail (input_file : String) (e : PyExn) : ConvResult :=
  match e with
  | .osError m => ⟨.ok false, ["Error processing file " ++ input_file ++ ": " ++ m], []⟩
  | .otherError m => ⟨.error (.otherError m), [], []⟩

/-- Embedding of `convert_md_to_docx(input_file, output_path)`: read the
input, convert markdown to a markup tree (the composed external
`markdown.markdown` + `BeautifulSoup` step is the `md2nodes` oracle), map
the tree into a fresh document, resolve the output path, create the output
directory when the resolved path has one, save, report success; `OSError`
from any step is caught per `convFail`. -/
def convert_md_to_docx (fs : FS) (md2nodes : String → Except PyExn (List Node))
    (input_file : String) (output_path : Option String) : ConvResult :=
  match fs.readFile input_file with
  | .error e => convFail input_file e
  | .ok md_content =>
    match md2nodes md_content with
    | .error e => convFail input_file e
    | .ok soup =>
      let doc := process_html_to_docx soup []
      let output_file :=
        match output_path with
        | none => (splitext input_file).1 ++ ".docx"
        | some op =>
          if fs.isdir op then joinPath op ((splitext (basename input_file)).1 ++ ".docx")
          else op
      let output_dir := dirname output_file
      match (if output_dir ≠ "" then fs.makedirs output_dir else .ok ()) with
      | .error e => convFail input_file e
      | .ok _ =>
        match fs.save output_file with
        | .error e => convFail input_file e
        | .ok _ =>
          ⟨.ok true,
           ["Successfully converted " ++ input_file ++ " to " ++ output_file],
           [(output_file, doc)]⟩

/-- ASCII fragment of Python `str.lower`; no character outside A–Z
lowercases to any character of the suffix `.md`, so the batch filter is
unchanged by restricting to ASCII case-folding. -/
def pyLowerChar (c : Char) : Char :=
  if 'A' ≤ c ∧ c ≤ 'Z' then Char.ofNat (c.toNat + 32) else c

/-- Embedding of the batch filter `filename.lower().endswith('.md')`. -/
def lowerEndsWithMd (filename : String) : Bool :=
  List.isSuffixOf ['.', 'm', 'd'] (filename.data.map pyLowerChar)

example : lowerEndsWithMd "README.MD" = true := by decide
example : lowerEndsWithMd "readme.md.txt" = false := by decide

/-- Observable outcome of `convert_directory`: normal completion or a
propagated exception, printed messages, the input paths passed to
`convert_md_to_docx` in order, the two counters, and all saved documents. -/
structure BatchResult where
  result : Except PyExn Unit
  printed : List String
  invoked : List String
  success_count : Nat
  failure_count : Nat
  saved : List (String × List Paragraph)
deriving Repr, DecidableEq

/-- The `for filename in os.listdir(...)` loop of `convert_directory`,
with the accumulated counters and observables as explicit state. -/
def convertDirLoop (fs : FS) (md2nodes : String → Except PyExn (List Node))
    (directory_path : String) (output_path : Option String) :
    List String → Nat → Nat → List String → List String →
    List (String × List Paragraph) → BatchResult
  | [], s, f, printed, invoked, saved =>
    ⟨.ok (),
     printed ++ ["\nConversion complete!",
                 "Successfully converted: " ++ toString s ++ " files",
                 "Failed conversions: " ++ toString f ++ " files"],
     invoked, s, f, saved⟩
  | filename :: rest, s, f, printed, invoked, saved =>
    if lowerEndsWithMd filename then
      let input_file := joinPath directory_path filename
      let r := convert_md_to_docx fs md2nodes input_file output_path
      match r.result with
      | .ok true =>
        convertDirLoop fs md2nodes directory_path output_path rest (s + 1) f
          (printed ++ r.printed) (invoked ++ [input_file]) (saved ++ r.saved)
      | .ok false =>
        convertDirLoop fs md2nodes directory_path output_path rest s (f + 1)
          (printed ++ r.printed) (invoked ++ [input_file]) (saved ++ r.saved)
      | .error e =>
        ⟨.error e, printed ++ r.printed, invoked ++ [input_file], s, f, saved ++ r.saved⟩
    else
      convertDirLoop fs md2nodes directory_path output_path rest s f printed invoked saved

/-- Embedding of `convert_directory(directory_path, output_path)`: reject a
non-directory, create the output directory when one is given and truthy
(an uncaught `makedirs` failure propagates — it is outside the per-file
`try`), then process each listed entry whose name ends case-insensitively
in `.md`, tallying each call's boolean result, and print the summary. -/
def convert_directory (fs : FS) (md2nodes : String → Except PyExn (List Node))
    (directory_path : String) (output_path : Option String) : BatchResult :=
  if fs.isdir directory_path = false then
    ⟨.ok (), ["Error: " ++ directory_path ++ " is not a directory"], [], 0, 0, []⟩
  else
    match (match output_path with
           | some op => if op ≠ "" then fs.makedirs op else .ok ()
           | none => .ok ()) with
    | .error e => ⟨.error e, [], [], 0, 0, []⟩
    | .ok _ =>
      convertDirLoop fs md2nodes directory_path output_path
        (fs.listdir directory_path) 0 0 [] [] []

/-- No two adjacent space characters occur in the list. -/
def noTwoSpaces : List Char → Bool
  | a :: b :: rest => !(a = ' ' && b = ' ') && noTwoSpaces (b :: rest)
  | _ => true

/-- The first character, if any, is not whitespace. -/
def headNoWs : List Char → Bool
  | [] => true
  | c :: _ => !isPySpace c

/-- The last character, if any, is not whitespace. -/
def lastNoWs (l : List Char) : Bool := headNoWs l.reverse

/-- No two adjacent characters are both whitespace. -/
def NoWsPair (l : List Char) : Prop :=
  List.Chain' (fun a b => ¬(isPySpace a = true ∧ isPySpace b = true)) l

/-- Every whitespace character of the list is a plain space. -/
def wsIsSpace (l : List Char) : Bool := l.all fun c => !isPySpace c || c = ' '

theorem headNoWs_head? {l : List Char} {y : Char} (h : headNoWs l = true)
    (hy : l.head? = some y) : isPySpace y = false := by
  cases l with
  | nil => simp at hy
  | cons a r =>
    simp only [List.head?_cons, Option.some.injEq] at hy
    subst hy
    simpa [headNoWs] using h

theorem collapse_invariant : ∀ (b : Bool) (l : List Char),
    NoWsPair (collapseWsAux b l) ∧ wsIsSpace (collapseWsAux b l) = true ∧
      (b = true → headNoWs (collapseWsAux b l) = true)
  | b, [] => by
    refine ⟨?_, ?_, fun _ => ?_⟩ <;> simp [collapseWsAux, NoWsPair, wsIsSpace, headNoWs]
  | b, c :: rest => by
    by_cases hws : isPySpace c = true
    · cases b with
      | true =>
        have ih := collapse_invariant true rest
        have hstep : collapseWsAux true (c :: rest) = collapseWsAux true rest := by
          simp [collapseWsAux, hws]
        rw [hstep]
        exact ⟨ih.1, ih.2.1, fun _ => ih.2.2 rfl⟩
      | false =>
        have ih := collapse_invariant true rest
        have hstep : collapseWsAux false (c :: rest) = ' ' :: collapseWsAux true rest := by
          simp [collapseWsAux, hws]
        rw [hstep]
        refine ⟨?_, ?_, fun hb => nomatch hb⟩
        · refine List.chain'_cons'.mpr ⟨fun y hy => ?_, ih.1⟩
          have := headNoWs_head? (ih.2.2 rfl) hy
          simp [this]
        · simpa [wsIsSpace] using ih.2.1
    · have ih := collapse_invariant false rest
      have hstep : collapseWsAux b (c :: rest) = c :: collapseWsAux false rest := by
        simp [collapseWsAux, hws]
      rw [hstep]
      refine ⟨?_, ?_, fun _ => ?_⟩
      · exact List.chain'_cons'.mpr ⟨fun y _ => by simp [hws], ih.1⟩
      · simpa [wsIsSpace, hws] using ih.2.1
      · simp [headNoWs, hws]

theorem headNoWs_dropWhile (l : List Char) :
    headNoWs (l.dropWhile isPySpace) = true := by
  induction l with
  | nil => simp [headNoWs]
  | cons c rest ih =>
    by_cases h : isPySpace c = true
    · simpa [List.dropWhile_cons, h] using ih
    · simp [List.dropWhile_cons, h, headNoWs]

theorem headNoWs_append_left {x : List Char} (y : List Char) (hx : x ≠ []) :
    headNoWs (x ++ y) = headNoWs x := by
  cases x with
  | nil => exact absurd rfl hx
  | cons a r => rfl

theorem lastNoWs_append (x : List Char) {y : List Char} (hy : y ≠ []) :
    lastNoWs (x ++ y) = lastNoWs y := by
  unfold lastNoWs
  rw [List.reverse_append]
  exact headNoWs_append_left _ (by simpa using hy)

/-- The symmetric whitespace-pair relation transfers across `reverse`. -/
theorem NoWsPair_reverse {l : List Char} (h : NoWsPair l) : NoWsPair l.reverse := by
  unfold NoWsPair at *
  rw [List.chain'_reverse]
  exact h.imp fun a b hab => by
    intro hc
    exact hab ⟨hc.2, hc.1⟩

theorem NoWsPair_dropWhile {l : List Char} (h : NoWsPair l) :
    NoWsPair (l.dropWhile isPySpace) :=
  List.Chain'.suffix h (List.dropWhile_suffix _)

theorem NoWsPair_pyStrip {l : List Char} (h : NoWsPair l) : NoWsPair (pyStrip l) := by
  unfold pyStrip
  exact NoWsPair_reverse (NoWsPair_dropWhile (NoWsPair_reverse (NoWsPair_dropWhile h)))

theorem mem_pyStrip {c : Char} {l : List Char} (h : c ∈ pyStrip l) : c ∈ l := by
  unfold pyStrip at h
  rw [List.mem_reverse] at h
  have h1 := (List.dropWhile_suffix (l := (l.dropWhile isPySpace).reverse) isPySpace).subset h
  rw [List.mem_reverse] at h1
  exact (List.dropWhile_suffix (l := l) isPySpace).subset h1

theorem wsIsSpace_pyStrip {l : List Char} (h : wsIsSpace l = true) :
    wsIsSpace (pyStrip l) = true := by
  rw [wsIsSpace, List.all_eq_true] at *
  exact fun c hc => h c (mem_pyStrip hc)

theorem headNoWs_pyStrip (l : List Char) : headNoWs (pyStrip l) = true := by
  unfold pyStrip
  obtain ⟨t, ht⟩ := List.dropWhile_suffix (l := (l.dropWhile isPySpace).reverse) isPySpace
  have hd : l.dropWhile isPySpace =
      ((l.dropWhile isPySpace).reverse.dropWhile isPySpace).reverse ++ t.reverse := by
    have := congrArg List.reverse ht
    simpa [List.reverse_append] using this.symm
  cases hrev : ((l.dropWhile isPySpace).reverse.dropWhile isPySpace).reverse with
  | nil => simp [hrev, headNoWs]
  | cons a r =>
    have h1 := headNoWs_dropWhile l
    rw [hd, hrev] at h1
    simpa [headNoWs] using h1

theorem lastNoWs_pyStrip (l : List Char) : lastNoWs (pyStrip l) = true := by
  unfold pyStrip lastNoWs
  rw [List.reverse_reverse]
  exact headNoWs_dropWhile _

theorem pyReplaceGo_skip (old new : List Char) :
    ∀ (s : List Char) (k : Nat), pyReplaceGo old new s k = pyReplaceGo old new (s.drop k) 0
  | [], k => by cases k <;> simp [pyReplaceGo]
  | c :: rest, 0 => by simp
  | c :: rest, k + 1 => by
    rw [List.drop_succ_cons]
    exact pyReplaceGo_skip old new rest k

theorem pyReplace_nil (old new : List Char) : pyReplace old new [] = [] := rfl

theorem pyReplace_pos {old : List Char} (new : List Char) {c : Char} {rest : List Char}
    (h0 : old ≠ []) (h : old.isPrefixOf (c :: rest) = true) :
    pyReplace old new (c :: rest) = new ++ pyReplace old new ((c :: rest).drop old.length) := by
  obtain ⟨a, old', rfl⟩ : ∃ a old', old = a :: old' := by
    cases old with
    | nil => exact absurd rfl h0
    | cons a old' => exact ⟨a, old', rfl⟩
  show (if _ ∧ _ then _ else _) = _
  rw [if_pos ⟨h0, h⟩]
  simp only [List.length_cons, List.drop_succ_cons, Nat.add_sub_cancel]
  rw [pyReplaceGo_skip]
  rfl

theorem pyReplace_neg {old : List Char} (new : List Char) {c : Char} {rest : List Char}
    (h : ¬(old ≠ [] ∧ old.isPrefixOf (c :: rest) = true)) :
    pyReplace old new (c :: rest) = c :: pyReplace old new rest := by
  show (if _ ∧ _ then _ else _) = _
  rw [if_neg h]
  rfl

theorem pyReplace_mem_aux (old new : List Char) (c : Char) :
    ∀ (n : Nat) (s : List Char), s.length ≤ n →
      c ∈ pyReplace old new s → c ∈ s ∨ c ∈ new := by
  intro n
  induction n with
  | zero =>
    intro s hs hmem
    obtain rfl : s = [] := List.eq_nil_of_length_eq_zero (Nat.le_zero.mp hs)
    simp [pyReplace_nil] at hmem
  | succ n ih =>
    intro s hs hmem
    match s with
    | [] => simp [pyReplace_nil] at hmem
    | c' :: rest =>
      by_cases hc : old ≠ [] ∧ old.isPrefixOf (c' :: rest) = true
      · rw [pyReplace_pos new hc.1 hc.2] at hmem
        rcases List.mem_append.mp hmem with h | h
        · exact Or.inr h
        · have hold : 1 ≤ old.length := List.length_pos.mpr hc.1
          have hlen : ((c' :: rest).drop old.length).length ≤ n := by
            rw [List.length_drop]
            simp only [List.length_cons] at hs ⊢
            omega
          rcases ih _ hlen h with h' | h'
          · exact Or.inl (List.drop_subset _ _ h')
          · exact Or.inr h'
      · rw [pyReplace_neg new hc] at hmem
        rcases List.mem_cons.mp hmem with h | h
        · exact Or.inl (h ▸ List.mem_cons_self _ _)
        · have hlen : rest.length ≤ n := by
            simp only [List.length_cons] at hs; omega
          rcases ih rest hlen h with h' | h'
          · exact Or.inl (List.mem_cons_of_mem _ h')
          · exact Or.inr h'

theorem pyReplace_mem {old new : List Char} {c : Char} {s : List Char}
    (h : c ∈ pyReplace old new s) : c ∈ s ∨ c ∈ new :=
  pyReplace_mem_aux old new c s.length s le_rfl h

theorem pyReplace_ne_nil {old new : List Char} {s : List Char}
    (hnew : new ≠ []) (hs : s ≠ []) : pyReplace old new s ≠ [] := by
  match s with
  | [] => exact absurd rfl hs
  | c :: rest =>
    by_cases hc : old ≠ [] ∧ old.isPrefixOf (c :: rest) = true
    · rw [pyReplace_pos new hc.1 hc.2]
      simpa using fun h _ => hnew h
    · rw [pyReplace_neg new hc]
      simp

theorem pyReplace_head?_cases {old new : List Char} {s : List Char} {y : Char}
    (hnew : new ≠ []) (h : (pyReplace old new s).head? = some y) :
    y ∈ new ∨ s.head? = some y := by
  match s with
  | [] => simp [pyReplace_nil] at h
  | c :: rest =>
    by_cases hc : old ≠ [] ∧ old.isPrefixOf (c :: rest) = true
    · rw [pyReplace_pos new hc.1 hc.2] at h
      match hn : new with
      | [] => exact absurd rfl hnew
      | a :: new' =>
        simp only [List.cons_append, List.head?_cons, Option.some.injEq] at h
        exact Or.inl (h ▸ List.mem_cons_self _ _)
    · rw [pyReplace_neg new hc] at h
      simp only [List.head?_cons, Option.some.injEq] at h
      exact Or.inr (by simp [h])

theorem nonWs_all_chain {l : List Char} (h : l.all (fun c => !isPySpace c) = true) :
    NoWsPair l := by
  induction l with
  | nil => exact List.chain'_nil
  | cons c rest ih =>
    rw [List.all_cons, Bool.and_eq_true] at h
    refine List.chain'_cons'.mpr ⟨fun y _ => ?_, ih h.2⟩
    intro hc
    rw [hc.1] at h
    simp at h

theorem headNoWs_of_all {l : List Char} (h : l.all (fun c => !isPySpace c) = true) :
    headNoWs l = true := by
  cases l with
  | nil => rfl
  | cons c rest =>
    rw [List.all_cons, Bool.and_eq_true] at h
    simpa [headNoWs] using h.1

theorem lastNoWs_of_all {l : List Char} (h : l.all (fun c => !isPySpace c) = true) :
    lastNoWs l = true := by
  unfold lastNoWs
  refine headNoWs_of_all ?_
  rw [List.all_eq_true] at h ⊢
  intro c hc
  exact h c (List.mem_reverse.mp hc)

theorem wsIsSpace_pyReplace {old new s : List Char}
    (hnw : new.all (fun c => !isPySpace c) = true) (hs : wsIsSpace s = true) :
    wsIsSpace (pyReplace old new s) = true := by
  rw [wsIsSpace, List.all_eq_true]
  intro c hc
  rcases pyReplace_mem hc with h | h
  · exact List.all_eq_true.mp hs c h
  · have := List.all_eq_true.mp hnw c h
    simp only [Bool.not_eq_true'] at this
    simp [this]

theorem headNoWs_pyReplace {old new s : List Char} (hnew : new ≠ [])
    (hnw : new.all (fun c => !isPySpace c) = true) (hs : headNoWs s = true) :
    headNoWs (pyReplace old new s) = true := by
  cases hr : pyReplace old new s with
  | nil => rfl
  | cons y t =>
    have hy : (pyReplace old new s).head? = some y := by rw [hr]; rfl
    rcases pyReplace_head?_cases hnew hy with h | h
    · have := List.all_eq_true.mp hnw y h
      simpa [headNoWs] using this
    · have := headNoWs_head? hs h
      simp [headNoWs, this]

theorem lastNoWs_drop {s : List Char} (k : Nat) (h : lastNoWs s = true) :
    lastNoWs (s.drop k) = true := by
  obtain ⟨t, ht⟩ := List.drop_suffix k s
  cases hd : s.drop k with
  | nil => rfl
  | cons a r =>
    have h2 : lastNoWs (t ++ s.drop k) = lastNoWs (s.drop k) :=
      lastNoWs_append t (by rw [hd]; simp)
    rw [ht, hd] at h2
    rw [← h2]
    exact h

theorem lastNoWs_cons {c : Char} {l : List Char} (hl : l ≠ []) :
    lastNoWs (c :: l) = lastNoWs l := by
  have : c :: l = [c] ++ l := rfl
  rw [this, lastNoWs_append [c] hl]

theorem lastNoWs_pyReplace_aux (old new : List Char) (hnew : new ≠ [])
    (hnw : new.all (fun c => !isPySpace c) = true) :
    ∀ (n : Nat) (s : List Char), s.length ≤ n → lastNoWs s = true →
      lastNoWs (pyReplace old new s) = true := by
  intro n
  induction n with
  | zero =>
    intro s hs _
    obtain rfl : s = [] := List.eq_nil_of_length_eq_zero (Nat.le_zero.mp hs)
    rfl
  | succ n ih =>
    intro s hs hlast
    match s with
    | [] => rfl
    | c :: rest =>
      by_cases hc : old ≠ [] ∧ old.isPrefixOf (c :: rest) = true
      · rw [pyReplace_pos new hc.1 hc.2]
        have hold : 1 ≤ old.length := List.length_pos.mpr hc.1
        have hlen : ((c :: rest).drop old.length).length ≤ n := by
          rw [List.length_drop]
          simp only [List.length_cons] at hs ⊢
          omega
        cases hr : pyReplace old new ((c :: rest).drop old.length) with
        | nil =>
          rw [List.append_nil]
          exact lastNoWs_of_all hnw
        | cons a r =>
          rw [lastNoWs_append new (y := a :: r) (by simp), ← hr]
          exact ih _ hlen (lastNoWs_drop _ hlast)
      · rw [pyReplace_neg new hc]
        by_cases hrne : rest = []
        · subst hrne
          simpa [pyReplace_nil] using hlast
        · have hrepne : pyReplace old new rest ≠ [] := pyReplace_ne_nil hnew hrne
          rw [lastNoWs_cons hrepne]
          rw [lastNoWs_cons hrne] at hlast
          have hlen : rest.length ≤ n := by
            simp only [List.length_cons] at hs; omega
          exact ih rest hlen hlast

theorem lastNoWs_pyReplace {old new s : List Char} (hnew : new ≠ [])
    (hnw : new.all (fun c => !isPySpace c) = true) (h : lastNoWs s = true) :
    lastNoWs (pyReplace old new s) = true :=
  lastNoWs_pyReplace_aux old new hnew hnw s.length s le_rfl h

theorem NoWsPair_pyReplace_aux (old new : List Char) (hnew : new ≠ [])
    (hnw : new.all (fun c => !isPySpace c) = true) :
    ∀ (n : Nat) (s : List Char), s.length ≤ n → NoWsPair s →
      NoWsPair (pyReplace old new s) := by
  intro n
  induction n with
  | zero =>
    intro s hs _
    obtain rfl : s = [] := List.eq_nil_of_length_eq_zero (Nat.le_zero.mp hs)
    exact List.chain'_nil
  | succ n ih =>
    intro s hs hchain
    match s with
    | [] => exact List.chain'_nil
    | c :: rest =>
      by_cases hc : old ≠ [] ∧ old.isPrefixOf (c :: rest) = true
      · rw [pyReplace_pos new hc.1 hc.2]
        have hold : 1 ≤ old.length := List.length_pos.mpr hc.1
        have hlen : ((c :: rest).drop old.length).length ≤ n := by
          rw [List.length_drop]
          simp only [List.length_cons] at hs ⊢
          omega
        refine List.chain'_append.mpr ⟨nonWs_all_chain hnw, ?_, ?_⟩
        · exact ih _ hlen (hchain.suffix (List.drop_suffix _ _))
        · intro x hx y _
          have hxm : x ∈ new := by
            cases hn : new with
            | nil => exact absurd hn hnew
            | cons a nr =>
              rw [hn] at hx
              exact List.mem_of_mem_getLast? (by simpa [hn] using hx)
          have := List.all_eq_true.mp hnw x hxm
          intro hcon
          rw [hcon.1] at this
          simp at this
      · rw [pyReplace_neg new hc]
        have hlen : rest.length ≤ n := by
          simp only [List.length_cons] at hs; omega
        refine List.chain'_cons'.mpr ⟨fun y hy => ?_, ih rest hlen hchain.tail⟩
        rcases pyReplace_head?_cases hnew hy with h | h
        · have := List.all_eq_true.mp hnw y h
          intro hcon
          rw [hcon.2] at this
          simp at this
        · have := List.chain'_cons'.mp hchain
          exact this.1 y h

theorem subBlankLinesGo_id : ∀ (s : List Char), '\n' ∉ s → subBlankLinesGo s 0 = s
  | [], _ => rfl
  | c :: rest, h => by
    have hc : ¬(c = '\n') := fun hc => h (hc ▸ List.mem_cons_self _ _)
    have hrest : '\n' ∉ rest := fun hr => h (List.mem_cons_of_mem _ hr)
    show (if c = '\n' then _ else _) = _
    rw [if_neg hc, subBlankLinesGo_id rest hrest]

theorem subBlankLines_id {s : List Char} (h : '\n' ∉ s) : subBlankLines s = s :=
  subBlankLinesGo_id s h

theorem no_newline_of_wsIsSpace {s : List Char} (h : wsIsSpace s = true) : '\n' ∉ s := by
  intro hmem
  have := List.all_eq_true.mp h _ hmem
  simp at this
  exact absurd this (by decide)

/-- Invariants of the full `clean_text` pipeline: no two adjacent
whitespace characters, every whitespace character is a plain space, and
neither end is whitespace. -/
theorem cleanTextList_invariant (l : List Char) :
    NoWsPair (cleanTextList l) ∧ wsIsSpace (cleanTextList l) = true ∧
      headNoWs (cleanTextList l) = true ∧ lastNoWs (cleanTextList l) = true := by
  have h1 := collapse_invariant false l
  have hchain2 : NoWsPair (pyStrip (collapseWs l)) := NoWsPair_pyStrip h1.1
  have hws2 : wsIsSpace (pyStrip (collapseWs l)) = true := wsIsSpace_pyStrip h1.2.1
  have hhead2 := headNoWs_pyStrip (collapseWs l)
  have hlast2 := lastNoWs_pyStrip (collapseWs l)
  have hq : (['"'] : List Char) ≠ [] ∧ (['"'] : List Char).all (fun c => !isPySpace c) = true := by
    refine ⟨by simp, by decide⟩
  have ha : (['\''] : List Char) ≠ [] ∧ (['\''] : List Char).all (fun c => !isPySpace c) = true := by
    refine ⟨by simp, by decide⟩
  have hd : (['–'] : List Char) ≠ [] ∧ (['–'] : List Char).all (fun c => !isPySpace c) = true := by
    refine ⟨by simp, by decide⟩
  set t2 := pyStrip (collapseWs l) with ht2
  set t3 := pyReplace ['"'] ['"'] (pyReplace ['"'] ['"'] t2) with ht3
  set t4 := pyReplace quoteLineOld ['\''] t3 with ht4
  set t5 := pyReplace ['-', '-'] ['–'] t4 with ht5
  have hchain5 : NoWsPair t5 :=
    NoWsPair_pyReplace_aux _ _ hd.1 hd.2 t4.length t4 le_rfl
      (NoWsPair_pyReplace_aux _ _ ha.1 ha.2 t3.length t3 le_rfl
        (NoWsPair_pyReplace_aux _ _ hq.1 hq.2 _ _ le_rfl
          (NoWsPair_pyReplace_aux _ _ hq.1 hq.2 _ _ le_rfl hchain2)))
  have hws5 : wsIsSpace t5 = true :=
    wsIsSpace_pyReplace hd.2 (wsIsSpace_pyReplace ha.2
      (wsIsSpace_pyReplace hq.2 (wsIsSpace_pyReplace hq.2 hws2)))
  have hhead5 : headNoWs t5 = true :=
    headNoWs_pyReplace hd.1 hd.2 (headNoWs_pyReplace ha.1 ha.2
      (headNoWs_pyReplace hq.1 hq.2 (headNoWs_pyReplace hq.1 hq.2 hhead2)))
  have hlast5 : lastNoWs t5 = true :=
    lastNoWs_pyReplace hd.1 hd.2 (lastNoWs_pyReplace ha.1 ha.2
      (lastNoWs_pyReplace hq.1 hq.2 (lastNoWs_pyReplace hq.1 hq.2 hlast2)))
  have hfinal : cleanTextList l = t5 := by
    rw [cleanTextList]
    exact subBlankLines_id (no_newline_of_wsIsSpace hws5)
  rw [hfinal]
  exact ⟨hchain5, hws5, hhead5, hlast5⟩

theorem noTwoSpaces_of_NoWsPair : ∀ {l : List Char}, NoWsPair l → noTwoSpaces l = true
  | [], _ => rfl
  | [_], _ => rfl
  | a :: b :: rest, h => by
    have hab := (List.chain'_cons.mp h).1
    have htail := (List.chain'_cons.mp h).2
    show (!(a = ' ' && b = ' ') && noTwoSpaces (b :: rest)) = true
    rw [noTwoSpaces_of_NoWsPair htail, Bool.and_true]
    by_cases hsp : a = ' ' ∧ b = ' '
    · exact absurd ⟨by rw [hsp.1]; decide, by rw [hsp.2]; decide⟩ hab
    · rcases not_and_or.mp hsp with h' | h' <;> simp [h']

/-- Relational specification, following the spec's words: `ReplacesAll old
new s t` states that `t` is `s` with every (leftmost, non-overlapping)
occurrence of `old` replaced by `new`. -/
inductive ReplacesAll (old new : List Char) : List Char → List Char → Prop where
  | nil : ReplacesAll old new [] []
  | keep (c : Char) (s t : List Char) (hnp : old.isPrefixOf (c :: s) = false)
      (h : ReplacesAll old new s t) : ReplacesAll old new (c :: s) (c :: t)
  | repl (s t : List Char) (h : ReplacesAll old new s t) :
      ReplacesAll old new (old ++ s) (new ++ t)

theorem pyReplace_replacesAll_aux (old new : List Char) (h0 : old ≠ []) :
    ∀ (n : Nat) (s : List Char), s.length ≤ n →
      ReplacesAll old new s (pyReplace old new s) := by
  intro n
  induction n with
  | zero =>
    intro s hs
    obtain rfl : s = [] := List.eq_nil_of_length_eq_zero (Nat.le_zero.mp hs)
    exact .nil
  | succ n ih =>
    intro s hs
    match s with
    | [] => exact .nil
    | c :: rest =>
      by_cases hc : old.isPrefixOf (c :: rest) = true
      · rw [pyReplace_pos new h0 hc]
        obtain ⟨t, ht⟩ := List.isPrefixOf_iff_prefix.mp hc
        have hdrop : (c :: rest).drop old.length = t := by
          rw [← ht, List.drop_left]
        have hlen : t.length ≤ n := by
          have hl := congrArg List.length ht
          have hold : 1 ≤ old.length := List.length_pos.mpr h0
          simp only [List.length_append, List.length_cons] at hl hs
          omega
        rw [hdrop, ← ht]
        exact .repl t _ (ih t hlen)
      · have hc' : ¬(old ≠ [] ∧ old.isPrefixOf (c :: rest) = true) := fun hand => hc hand.2
        rw [pyReplace_neg new hc']
        have hlen : rest.length ≤ n := by simp only [List.length_cons] at hs; omega
        have hnp : old.isPrefixOf (c :: rest) = false := Bool.eq_false_iff.mpr hc
        exact .keep c rest _ hnp (ih rest hlen)

/-- C2 counterexample: the claim says step (4) of `clean_text` replaces
`--` with an em-dash (U+2014); on the input `--` the code produces the
en-dash U+2013, which is not the em-dash. -/
theorem dash_replacement_em_dash_counterexample :
    clean_text "--" = "–" ∧ ("–" : String) ≠ "—" :=
  ⟨by decide, by decide⟩

/-- C2 (amended): the dash-normalization step of `clean_text` (its
`pyReplace ['-', '-'] ['–']` stage) replaces every occurrence of the
two-character sequence `--` with a single en-dash character U+2013. -/
theorem dash_replacement_en_dash :
    (∀ s : List Char, ReplacesAll ['-', '-'] ['–'] s (pyReplace ['-', '-'] ['–'] s)) ∧
      clean_text "a--b" = "a–b" :=
  ⟨fun s => pyReplace_replacesAll_aux _ _ (by simp) s.length s le_rfl, by decide⟩

/-- C4: `clean_text` is not idempotent.  The apostrophe-normalization line
parses as `text.replace(<the 15-character fragment>, "'")` (see
`quoteLineOld`), so an input arranged to still contain that fragment after one pass — and a second pass rewrites it again.  At
the failing input below, one application returns the fragment itself and a
second application collapses it to a single apostrophe. -/
theorem clean_text_not_idempotent :
    clean_text (clean_text ", \", \"'\").replace(\").replace(") ≠
        clean_text ", \", \"'\").replace(\").replace(" ∧
      clean_text ", \", \"'\").replace(\").replace(" = ", \"'\").replace(" ∧
      clean_text (clean_text ", \", \"'\").replace(\").replace(") = "'" :=
  ⟨by decide, by decide, by decide⟩

/-- C5: for every input string, the output of `clean_text` contains no two
consecutive space characters and has no leading or trailing whitespace. -/
theorem clean_text_whitespace_law (s : String) :
    noTwoSpaces (clean_text s).data = true ∧ headNoWs (clean_text s).data = true ∧
      lastNoWs (clean_text s).data = true := by
  have h := cleanTextList_invariant s.data
  exact ⟨noTwoSpaces_of_NoWsPair h.1, h.2.2.1, h.2.2.2⟩

/-- A node is an unordered- or ordered-list element. -/
def isListNode : Node → Bool
  | .text _ => false
  | .elem name _ => name = "ul" || name = "ol"

/-- A node is a horizontal-rule element. -/
def isHrNode : Node → Bool
  | .text _ => false
  | .elem name _ => name = "hr"

/-- Extracted text of a top-level node: a raw text node's own string, an
element's concatenated descendant text. -/
def extractedText : Node → String
  | .text s => s
  | .elem _ children => getTextList children

theorem collapseWsAux_true_allws {l : List Char} (h : l.all isPySpace = true) :
    collapseWsAux true l = [] := by
  induction l with
  | nil => rfl
  | cons c rest ih =>
    rw [List.all_cons, Bool.and_eq_true] at h
    simp [collapseWsAux, h.1, ih h.2]

theorem collapseWs_allws {l : List Char} (h : l.all isPySpace = true) :
    collapseWs l = [] ∨ collapseWs l = [' '] := by
  cases l with
  | nil => exact Or.inl rfl
  | cons c rest =>
    rw [List.all_cons, Bool.and_eq_true] at h
    right
    show collapseWsAux false (c :: rest) = [' ']
    simp [collapseWsAux, h.1, collapseWsAux_true_allws h.2]

theorem pyStrip_allws {l : List Char} (h : l.all isPySpace = true) : pyStrip l = [] := by
  have hd : l.dropWhile isPySpace = [] :=
    List.dropWhile_eq_nil_iff.mpr (List.all_eq_true.mp h)
  rw [pyStrip, hd]
  rfl

theorem cleanTextList_allws {l : List Char} (h : l.all isPySpace = true) :
    cleanTextList l = [] := by
  have heq : cleanTextList l =
      subBlankLines (pyReplace ['-', '-'] ['–'] (pyReplace quoteLineOld ['\'']
        (pyReplace ['"'] ['"'] (pyReplace ['"'] ['"'] (pyStrip (collapseWs l)))))) := rfl
  rw [heq]
  have hstrip : pyStrip (collapseWs l) = [] := by
    rcases collapseWs_allws h with hc | hc <;> rw [hc] <;> decide
  rw [hstrip]
  rfl

theorem clean_text_allws {s : String} (h : s.data.all isPySpace = true) :
    clean_text s = "" := by
  show String.mk (cleanTextList s.data) = ""
  rw [cleanTextList_allws h]

theorem getText_mem_allws {children : List Node}
    (h : (getTextList children).data.all isPySpace = true) :
    ∀ n ∈ children, (getText n).data.all isPySpace = true := by
  induction children with
  | nil => intro n hn; simp at hn
  | cons m rest ih =>
    intro n hn
    have hsplit : (getTextList (m :: rest)).data =
        (getText m).data ++ (getTextList rest).data := rfl
    rw [hsplit, List.all_append, Bool.and_eq_true] at h
    rcases List.mem_cons.mp hn with rfl | hn'
    · exact h.1
    · exact ih h.2 n hn'

theorem processElement_ul (children : List Node) :
    processElement (Node.elem "ul" children) =
      (directLis children).foldr
        (fun li acc =>
          (if clean_text (getText li) ≠ "" then
            [{ style := "List Bullet", runs := [{ text := clean_text (getText li) }],
               paragraph_format := { leftIndentPt := some 36 } }]
           else []) ++ acc) [] := rfl

theorem processElement_ol (children : List Node) :
    processElement (Node.elem "ol" children) =
      (directLis children).foldr
        (fun li acc =>
          (if clean_text (getText li) ≠ "" then
            [{ style := "List Number", runs := [{ text := clean_text (getText li) }],
               paragraph_format := { leftIndentPt := some 36 } }]
           else []) ++ acc) [] := rfl

theorem listFoldr_eq (style : String) :
    ∀ lis : List Node,
      lis.foldr
        (fun li acc =>
          (if clean_text (getText li) ≠ "" then
            [{ style := style, runs := [{ text := clean_text (getText li) }],
               paragraph_format := { leftIndentPt := some 36 } : Paragraph }]
           else []) ++ acc) [] =
      (lis.filter fun li => clean_text (getText li) != "").map
        (fun li => { style := style, runs := [{ text := clean_text (getText li) }],
                     paragraph_format := { leftIndentPt := some 36 } })
  | [] => rfl
  | li :: rest => by
    have ih := listFoldr_eq style rest
    rw [List.foldr_cons, List.filter_cons, ih]
    by_cases h : clean_text (getText li) = "" <;> simp [h, bne]

theorem process_single (e : Node) (doc : List Paragraph) :
    process_html_to_docx [e] doc = doc ++ processElement e := rfl

/-- C6: a horizontal-rule node always appends exactly one paragraph, no
matter what its content is, with a single synthesized run of 30 repeated
U+2500 box-drawing (dash-like) characters, centered alignment (code 1) and
12-point font size. -/
theorem hr_always_emits_rule_paragraph (children : List Node) (doc : List Paragraph) :
    process_html_to_docx [Node.elem "hr" children] doc =
      doc ++ [{ style := "Normal",
                runs := [{ text := String.mk (List.replicate 30 '─'), fontSizePt := some 12 }],
                paragraph_format := { alignment := some 1 } }] := rfl

/-- C3 counterexample: an unordered list with two direct list-item
children, one of them whitespace-only, yields one paragraph, not two. -/
theorem list_mapping_count_counterexample :
    (process_html_to_docx
        [Node.elem "ul" [Node.elem "li" [Node.text "a"], Node.elem "li" [Node.text " "]]]
        []).length = 1 ∧
      (directLis [Node.elem "li" [Node.text "a"], Node.elem "li" [Node.text " "]]).length = 2 :=
  ⟨by decide, by decide⟩

/-- C3 (amended): an unordered-list node yields exactly one paragraph per
direct list-item child whose normalized text is non-empty — each with style
`List Bullet` and 36-point left indent — and an ordered-list node yields
the same with style `List Number`; items whose normalized text is empty
are skipped. -/
theorem list_mapping_nonempty_items :
    (∀ children : List Node,
      process_html_to_docx [Node.elem "ul" children] [] =
        ((directLis children).filter fun li => clean_text (getText li) != "").map
          (fun li => { style := "List Bullet",
                       runs := [{ text := clean_text (getText li) }],
                       paragraph_format := { leftIndentPt := some 36 } })) ∧
    (∀ children : List Node,
      process_html_to_docx [Node.elem "ol" children] [] =
        ((directLis children).filter fun li => clean_text (getText li) != "").map
          (fun li => { style := "List Number",
                       runs := [{ text := clean_text (getText li) }],
                       paragraph_format := { leftIndentPt := some 36 } })) := by
  constructor
  · intro children
    rw [process_single, List.nil_append, processElement_ul, listFoldr_eq]
  · intro children
    rw [process_single, List.nil_append, processElement_ol, listFoldr_eq]

/-- C1 counterexample: a non-empty unordered-list node appends two
paragraphs (not at most one), and a horizontal-rule node, whose extracted
text is empty, still appends one paragraph. -/
theorem blockMapper_at_most_one_counterexample :
    (process_html_to_docx
        [Node.elem "ul" [Node.elem "li" [Node.text "a"], Node.elem "li" [Node.text "b"]]]
        []).length = 2 ∧
      extractedText (Node.elem "ul" [Node.elem "li" [Node.text "a"],
        Node.elem "li" [Node.text "b"]]) ≠ "" ∧
      (process_html_to_docx [Node.elem "hr" []] []).length = 1 ∧
      extractedText (Node.elem "hr" []) = "" :=
  ⟨by decide, by decide, by decide, by decide⟩

/-- C1 (amended): each non-empty top-level block node appends at most one
paragraph, except that a list node appends at most one paragraph per
direct list-item child; a node whose extracted text is empty or
whitespace-only appends no paragraph, except a horizontal rule, which
always appends exactly one. -/
theorem blockMapper_paragraph_count_amended :
    (∀ e : Node, isListNode e = false → (process_html_to_docx [e] []).length ≤ 1) ∧
    (∀ (name : String) (children : List Node), name = "ul" ∨ name = "ol" →
      (process_html_to_docx [Node.elem name children] []).length ≤
        (directLis children).length) ∧
    (∀ e : Node, isHrNode e = false → (extractedText e).data.all isPySpace = true →
      process_html_to_docx [e] [] = []) ∧
    (∀ children : List Node,
      (process_html_to_docx [Node.elem "hr" children] []).length = 1) := by
  refine ⟨?_, ?_, ?_, ?_⟩
  · intro e he
    rw [process_single, List.nil_append]
    match e with
    | .text s =>
      simp only [processElement]
      split_ifs <;> simp
    | .elem name children =>
      simp only [processElement]
      split_ifs with h1 h2 h3 h4 h5 h6 h7 h8 h9 h10 h11 <;>
        first
          | (simp; done)
          | (obtain rfl | rfl := h5 <;> simp [isListNode] at he)
  · intro name children h
    rcases h with rfl | rfl
    · rw [process_single, List.nil_append, processElement_ul, listFoldr_eq, List.length_map]
      exact List.length_filter_le _ _
    · rw [process_single, List.nil_append, processElement_ol, listFoldr_eq, List.length_map]
      exact List.length_filter_le _ _
  · intro e hhr hws
    rw [process_single, List.nil_append]
    match e with
    | .text s =>
      have hstrip : pyStrip s.data = [] := pyStrip_allws hws
      simp [processElement, hstrip]
    | .elem name children =>
      have htext : clean_text (getTextList children) = "" := clean_text_allws hws
      have hli : ∀ li ∈ directLis children, clean_text (getText li) = "" := fun li hmem =>
        clean_text_allws (getText_mem_allws hws li (List.filter_subset' _ hmem))
      simp only [processElement]
      split_ifs with h1 h2 h3 h4 h5 h6 h7 h8 h9 h10 h11 <;>
        first
          | rfl
          | (exact absurd htext (by assumption))
          | (subst h11; simp [isHrNode] at hhr)
          | (rw [listFoldr_eq,
              List.filter_eq_nil_iff.mpr (fun li hmem => by simp [hli li hmem])]
             rfl)
  · intro children
    rfl

/-- Witness for the amended block-mapper count theorem at concrete nodes:
a blockquote appends at most one paragraph, a one-item list is bounded by
its item count, and a whitespace-only paragraph node appends nothing. -/
theorem blockMapper_paragraph_count_amended_witness :
    (process_html_to_docx [Node.elem "blockquote" [Node.text "hi"]] []).length ≤ 1 ∧
      (process_html_to_docx [Node.elem "ul" [Node.elem "li" [Node.text "x"]]] []).length ≤
        (directLis [Node.elem "li" [Node.text "x"]]).length ∧
      process_html_to_docx [Node.elem "p" [Node.text "   "]] [] = [] :=
  ⟨blockMapper_paragraph_count_amended.1 (Node.elem "blockquote" [Node.text "hi"]) (by decide),
   blockMapper_paragraph_count_amended.2.1 "ul" [Node.elem "li" [Node.text "x"]] (Or.inl rfl),
   blockMapper_paragraph_count_amended.2.2.1 (Node.elem "p" [Node.text "   "])
     (by decide) (by decide)⟩

/-- Output-path resolution, written from the spec's words (§4.3 step 5):
no output path — replace the input's extension with `.docx` in place; an
existing directory — that directory joined with the input's base name with
extension swapped; otherwise the output path verbatim. -/
def resolveOutputSpec (isdir : String → Bool) (input_file : String)
    (output_path : Option String) : String :=
  match output_path with
  | none => (splitext input_file).1 ++ ".docx"
  | some op =>
    if isdir op then joinPath op ((splitext (basename input_file)).1 ++ ".docx")
    else op

/-- C7: `convert_md_to_docx` returns `True` on full success; an
`OSError`-class failure at any I/O step (read, directory creation, save)
is caught, a diagnostic naming the input file and the cause is printed,
and `False` is returned; a non-I/O exception (e.g. one raised by the
markdown/HTML collaborators) is not caught and propagates. -/
theorem convert_md_to_docx_error_handling :
    (∀ (fs : FS) (md : String → Except PyExn (List Node)) (input : String)
        (out : Option String) (content : String) (nodes : List Node),
      fs.readFile input = .ok content → md content = .ok nodes →
      (∀ p, fs.makedirs p = .ok ()) → (∀ p, fs.save p = .ok ()) →
      (convert_md_to_docx fs md input out).result = .ok true) ∧
    (∀ (fs : FS) (md : String → Except PyExn (List Node)) (input : String)
        (out : Option String) (m : String),
      fs.readFile input = .error (.osError m) →
      convert_md_to_docx fs md input out =
        ⟨.ok false, ["Error processing file " ++ input ++ ": " ++ m], []⟩) ∧
    (∀ (fs : FS) (md : String → Except PyExn (List Node)) (input : String)
        (out : Option String) (content : String) (nodes : List Node) (m : String),
      fs.readFile input = .ok content → md content = .ok nodes →
      (∀ p, fs.makedirs p = .ok ()) → (∀ p, fs.save p = .error (.osError m)) →
      convert_md_to_docx fs md input out =
        ⟨.ok false, ["Error processing file " ++ input ++ ": " ++ m], []⟩) ∧
    (∀ (fs : FS) (md : String → Except PyExn (List Node)) (input : String)
        (out : Option String) (content : String) (m : String),
      fs.readFile input = .ok content → md content = .error (.otherError m) →
      (convert_md_to_docx fs md input out).result = .error (.otherError m)) ∧
    (∀ (fs : FS) (md : String → Except PyExn (List Node)) (input : String)
        (out : Option String) (content : String) (m : String),
      fs.readFile input = .ok content → md content = .error (.osError m) →
      convert_md_to_docx fs md input out =
        ⟨.ok false, ["Error processing file " ++ input ++ ": " ++ m], []⟩) ∧
    (∀ (fs : FS) (md : String → Except PyExn (List Node)) (input : String)
        (out : Option String) (content : String) (nodes : List Node) (m : String),
      fs.readFile input = .ok content → md content = .ok nodes →
      (∀ p, fs.makedirs p = .error (.osError m)) →
      dirname (resolveOutputSpec fs.isdir input out) ≠ "" →
      convert_md_to_docx fs md input out =
        ⟨.ok false, ["Error processing file " ++ input ++ ": " ++ m], []⟩) := by
  refine ⟨?_, ?_, ?_, ?_, ?_, ?_⟩
  · intro fs md input out content nodes hread hmd hmk hsave
    simp only [convert_md_to_docx.eq_def, hread, hmd, hmk, hsave, ite_self]
  · intro fs md input out m hread
    simp only [convert_md_to_docx.eq_def, hread, convFail]
  · intro fs md input out content nodes m hread hmd hmk hsave
    simp only [convert_md_to_docx.eq_def, hread, hmd, hmk, hsave, ite_self, convFail]
  · intro fs md input out content m hread hmd
    simp only [convert_md_to_docx.eq_def, hread, hmd, convFail]
  · intro fs md input out content m hread hmd
    simp only [convert_md_to_docx.eq_def, hread, hmd, convFail]
  · intro fs md input out content nodes m hread hmd hmk hdir
    cases out with
    | none =>
      have hd : dirname ((splitext input).1 ++ ".docx") ≠ "" := hdir
      simp only [convert_md_to_docx.eq_def, hread, hmd, hmk, if_pos hd, convFail]
    | some op =>
      by_cases hop : fs.isdir op = true
      · have hd : dirname (joinPath op ((splitext (basename input)).1 ++ ".docx")) ≠ "" := by
          have h := hdir
          simp only [resolveOutputSpec, hop, if_true] at h
          exact h
        simp only [convert_md_to_docx.eq_def, hread, hmd, hop, if_true, hmk, if_pos hd,
          convFail]
      · have hd : dirname op ≠ "" := by
          have h := hdir
          simp only [resolveOutputSpec, hop, if_false, Bool.false_eq_true] at h
          exact h
        simp only [convert_md_to_docx.eq_def, hread, hmd, hop, if_false, Bool.false_eq_true,
          hmk, if_pos hd, convFail]

/-- Collaborator fixture: markdown conversion producing one paragraph. -/
def mdOneParagraph : String → Except PyExn (List Node) :=
  fun s => .ok [Node.elem "p" [Node.text s]]

/-- Collaborator fixture: markdown conversion raising a non-I/O error. -/
def mdRaises : String → Except PyExn (List Node) :=
  fun _ => .error (.otherError "bad markup")

/-- File-system fixture in which every operation succeeds and `out` is the
only existing directory. -/
def fsAllOk : FS where
  readFile := fun _ => .ok "hello"
  isdir := fun p => p = "out"
  makedirs := fun _ => .ok ()
  save := fun _ => .ok ()
  listdir := fun _ => ["a.md"]

/-- File-system fixture in which reading any file fails with a permission
error. -/
def fsReadDenied : FS where
  readFile := fun _ => .error (.osError "Permission denied")
  isdir := fun _ => false
  makedirs := fun _ => .ok ()
  save := fun _ => .ok ()
  listdir := fun _ => []

/-- File-system fixture in which saving any document fails. -/
def fsSaveDenied : FS where
  readFile := fun _ => .ok "hello"
  isdir := fun _ => false
  makedirs := fun _ => .ok ()
  save := fun _ => .error (.osError "No space left on device")
  listdir := fun _ => []

/-- File-system fixture in which creating any directory fails. -/
def fsMkdirDenied : FS where
  readFile := fun _ => .ok "hello"
  isdir := fun _ => false
  makedirs := fun _ => .error (.osError "Read-only file system")
  save := fun _ => .ok ()
  listdir := fun _ => []

/-- Witness for the error-handling theorem at concrete oracles: a fully
successful run returns true; a read failure, a save failure, and a
directory-creation failure are caught as false with the diagnostic; a
non-I/O collaborator error propagates. -/
theorem convert_md_to_docx_error_handling_witness :
    (convert_md_to_docx fsAllOk mdOneParagraph "docs/note.md" none).result = .ok true ∧
      convert_md_to_docx fsReadDenied mdOneParagraph "x.md" none =
        ⟨.ok false, ["Error processing file x.md: Permission denied"], []⟩ ∧
      convert_md_to_docx fsSaveDenied mdOneParagraph "x.md" none =
        ⟨.ok false, ["Error processing file x.md: No space left on device"], []⟩ ∧
      convert_md_to_docx fsMkdirDenied mdOneParagraph "docs/note.md" none =
        ⟨.ok false, ["Error processing file docs/note.md: Read-only file system"], []⟩ ∧
      (convert_md_to_docx fsAllOk mdRaises "x.md" none).result =
        .error (.otherError "bad markup") :=
  ⟨convert_md_to_docx_error_handling.1 fsAllOk mdOneParagraph "docs/note.md" none "hello"
      [Node.elem "p" [Node.text "hello"]] rfl rfl (fun _ => rfl) (fun _ => rfl),
   convert_md_to_docx_error_handling.2.1 fsReadDenied mdOneParagraph "x.md" none
      "Permission denied" rfl,
   convert_md_to_docx_error_handling.2.2.1 fsSaveDenied mdOneParagraph "x.md" none "hello"
      [Node.elem "p" [Node.text "hello"]] "No space left on device" rfl rfl
      (fun _ => rfl) (fun _ => rfl),
   convert_md_to_docx_error_handling.2.2.2.2.2 fsMkdirDenied mdOneParagraph "docs/note.md"
      none "hello" [Node.elem "p" [Node.text "hello"]] "Read-only file system" rfl rfl
      (fun _ => rfl) (by decide),
   convert_md_to_docx_error_handling.2.2.2.1 fsAllOk mdRaises "x.md" none "hello"
      "bad markup" rfl rfl⟩

/-- C8: on a successful conversion the saved output path (and the path
named in the success message) is resolved exactly as the specification
states — `resolveOutputSpec`: extension replaced in place when the output
path is absent, directory join with swapped extension when it names an
existing directory, and the verbatim path otherwise. -/
theorem convert_md_to_docx_output_path :
    ∀ (fs : FS) (md : String → Except PyExn (List Node)) (input : String)
      (out : Option String) (content : String) (nodes : List Node),
      fs.readFile input = .ok content → md content = .ok nodes →
      (∀ p, fs.makedirs p = .ok ()) → (∀ p, fs.save p = .ok ()) →
      convert_md_to_docx fs md input out =
        ⟨.ok true,
         ["Successfully converted " ++ input ++ " to " ++ resolveOutputSpec fs.isdir input out],
         [(resolveOutputSpec fs.isdir input out, process_html_to_docx nodes [])]⟩ := by
  intro fs md input out content nodes hread hmd hmk hsave
  simp only [convert_md_to_docx.eq_def, hread, hmd, hmk, hsave, ite_self]
  cases out with
  | none => rfl
  | some op =>
    by_cases hop : fs.isdir op = true
    · simp only [resolveOutputSpec, hop, if_true]
    · simp only [resolveOutputSpec, hop, if_false, Bool.false_eq_true]

/-- Witness for the output-path theorem: converting `docs/note.md` with no
output path saves to `docs/note.docx`; with the existing directory `out`
it saves to `out/note.docx`. -/
theorem convert_md_to_docx_output_path_witness :
    convert_md_to_docx fsAllOk mdOneParagraph "docs/note.md" none =
      ⟨.ok true,
       ["Successfully converted docs/note.md to " ++
         resolveOutputSpec fsAllOk.isdir "docs/note.md" none],
       [(resolveOutputSpec fsAllOk.isdir "docs/note.md" none,
         process_html_to_docx [Node.elem "p" [Node.text "hello"]] [])]⟩ ∧
      resolveOutputSpec fsAllOk.isdir "docs/note.md" none = "docs/note.docx" ∧
      convert_md_to_docx fsAllOk mdOneParagraph "docs/note.md" (some "out") =
        ⟨.ok true,
         ["Successfully converted docs/note.md to " ++
           resolveOutputSpec fsAllOk.isdir "docs/note.md" (some "out")],
         [(resolveOutputSpec fsAllOk.isdir "docs/note.md" (some "out"),
           process_html_to_docx [Node.elem "p" [Node.text "hello"]] [])]⟩ ∧
      resolveOutputSpec fsAllOk.isdir "docs/note.md" (some "out") = "out/note.docx" :=
  ⟨convert_md_to_docx_output_path fsAllOk mdOneParagraph "docs/note.md" none "hello"
      [Node.elem "p" [Node.text "hello"]] rfl rfl (fun _ => rfl) (fun _ => rfl),
   by decide,
   convert_md_to_docx_output_path fsAllOk mdOneParagraph "docs/note.md" (some "out") "hello"
      [Node.elem "p" [Node.text "hello"]] rfl rfl (fun _ => rfl) (fun _ => rfl),
   by decide⟩

/-- Behaviour of the batch loop: it processes exactly the entries whose
names pass the case-insensitive `.md` filter, adds one to the success or
failure counter according to each call's boolean result, never stops early
as long as no call propagates an exception, and ends with the summary. -/
theorem convertDirLoop_spec (fs : FS) (md : String → Except PyExn (List Node))
    (dir : String) (out : Option String) :
    ∀ (entries : List String) (s f : Nat) (printed invoked : List String)
      (saved : List (String × List Paragraph)),
      (∀ fn ∈ entries, lowerEndsWithMd fn = true →
        ∃ b, (convert_md_to_docx fs md (joinPath dir fn) out).result = .ok b) →
      (convertDirLoop fs md dir out entries s f printed invoked saved).invoked =
          invoked ++ (entries.filter lowerEndsWithMd).map (fun fn => joinPath dir fn) ∧
        (convertDirLoop fs md dir out entries s f printed invoked saved).success_count =
          s + (entries.filter lowerEndsWithMd).countP
            (fun fn => (convert_md_to_docx fs md (joinPath dir fn) out).result == .ok true) ∧
        (convertDirLoop fs md dir out entries s f printed invoked saved).failure_count =
          f + (entries.filter lowerEndsWithMd).countP
            (fun fn => (convert_md_to_docx fs md (joinPath dir fn) out).result == .ok false) ∧
        (convertDirLoop fs md dir out entries s f printed invoked saved).result = .ok () ∧
        ∃ pre, (convertDirLoop fs md dir out entries s f printed invoked saved).printed =
          pre ++ ["\nConversion complete!",
            "Successfully converted: " ++
              toString (convertDirLoop fs md dir out entries s f printed invoked saved).success_count
              ++ " files",
            "Failed conversions: " ++
              toString (convertDirLoop fs md dir out entries s f printed invoked saved).failure_count
              ++ " files"]
  | [], s, f, printed, invoked, saved => by
    intro _
    refine ⟨by simp [convertDirLoop], by simp [convertDirLoop], by simp [convertDirLoop],
      rfl, ⟨printed, rfl⟩⟩
  | fn :: rest, s, f, printed, invoked, saved => by
    intro hok
    have hrest : ∀ g ∈ rest, lowerEndsWithMd g = true →
        ∃ b, (convert_md_to_docx fs md (joinPath dir g) out).result = .ok b :=
      fun g hg => hok g (List.mem_cons_of_mem _ hg)
    by_cases hmd : lowerEndsWithMd fn = true
    · obtain ⟨b, hb⟩ := hok fn (List.mem_cons_self _ _) hmd
      cases b
      · have hstep : convertDirLoop fs md dir out (fn :: rest) s f printed invoked saved =
            convertDirLoop fs md dir out rest s (f + 1)
              (printed ++ (convert_md_to_docx fs md (joinPath dir fn) out).printed)
              (invoked ++ [joinPath dir fn])
              (saved ++ (convert_md_to_docx fs md (joinPath dir fn) out).saved) := by
          rw [convertDirLoop]
          simp only [hmd, if_true, hb]
        have ih := convertDirLoop_spec fs md dir out rest s (f + 1)
          (printed ++ (convert_md_to_docx fs md (joinPath dir fn) out).printed)
          (invoked ++ [joinPath dir fn])
          (saved ++ (convert_md_to_docx fs md (joinPath dir fn) out).saved) hrest
        rw [hstep, List.filter_cons_of_pos hmd]
        refine ⟨?_, ?_, ?_, ih.2.2.2.1, ih.2.2.2.2⟩
        · rw [ih.1, List.map_cons, List.append_assoc]
          rfl
        · rw [ih.2.1, List.countP_cons]
          simp [hb]
        · rw [ih.2.2.1, List.countP_cons]
          simp [hb]
          omega
      · have hstep : convertDirLoop fs md dir out (fn :: rest) s f printed invoked saved =
            convertDirLoop fs md dir out rest (s + 1) f
              (printed ++ (convert_md_to_docx fs md (joinPath dir fn) out).printed)
              (invoked ++ [joinPath dir fn])
              (saved ++ (convert_md_to_docx fs md (joinPath dir fn) out).saved) := by
          rw [convertDirLoop]
          simp only [hmd, if_true, hb]
        have ih := convertDirLoop_spec fs md dir out rest (s + 1) f
          (printed ++ (convert_md_to_docx fs md (joinPath dir fn) out).printed)
          (invoked ++ [joinPath dir fn])
          (saved ++ (convert_md_to_docx fs md (joinPath dir fn) out).saved) hrest
        rw [hstep, List.filter_cons_of_pos hmd]
        refine ⟨?_, ?_, ?_, ih.2.2.2.1, ih.2.2.2.2⟩
        · rw [ih.1, List.map_cons, List.append_assoc]
          rfl
        · rw [ih.2.1, List.countP_cons]
          simp [hb]
          omega
        · rw [ih.2.2.1, List.countP_cons]
          simp [hb]
    · have hstep : convertDirLoop fs md dir out (fn :: rest) s f printed invoked saved =
          convertDirLoop fs md dir out rest s f printed invoked saved := by
        rw [convertDirLoop]
        simp [hmd]
      have ih := convertDirLoop_spec fs md dir out rest s f printed invoked saved hrest
      rw [hstep, List.filter_cons_of_neg hmd]
      exact ih

theorem convert_directory_eq_loop (fs : FS) (md : String → Except PyExn (List Node))
    (dir : String) (out : Option String)
    (hdir : fs.isdir dir = true) (hmk : ∀ p, fs.makedirs p = .ok ()) :
    convert_directory fs md dir out =
      convertDirLoop fs md dir out (fs.listdir dir) 0 0 [] [] [] := by
  unfold convert_directory
  rw [hdir]
  simp only [Bool.true_eq_false, if_false]
  cases out with
  | none => rfl
  | some op =>
    by_cases hop : op = ""
    · simp only [hop]
      rfl
    · simp only [hop, hmk, if_neg, ite_self]

/-- C9: `convert_directory` processes exactly the entries whose names end
case-insensitively in `.md`, invoking the file converter once per match in
order, accumulates the success and failure counters from each call's
boolean result, completes the whole batch whenever no call propagates an
exception, and ends by printing a summary of both counters. -/
theorem convert_directory_batch (fs : FS) (md : String → Except PyExn (List Node))
    (dir : String) (out : Option String)
    (hdir : fs.isdir dir = true)
    (hmk : ∀ p, fs.makedirs p = .ok ())
    (hconv : ∀ fn ∈ fs.listdir dir, lowerEndsWithMd fn = true →
      ∃ b, (convert_md_to_docx fs md (joinPath dir fn) out).result = .ok b) :
    (convert_directory fs md dir out).invoked =
        ((fs.listdir dir).filter lowerEndsWithMd).map (fun fn => joinPath dir fn) ∧
      (convert_directory fs md dir out).success_count =
        ((fs.listdir dir).filter lowerEndsWithMd).countP
          (fun fn => (convert_md_to_docx fs md (joinPath dir fn) out).result == .ok true) ∧
      (convert_directory fs md dir out).failure_count =
        ((fs.listdir dir).filter lowerEndsWithMd).countP
          (fun fn => (convert_md_to_docx fs md (joinPath dir fn) out).result == .ok false) ∧
      (convert_directory fs md dir out).result = .ok () ∧
      ∃ pre, (convert_directory fs md dir out).printed =
        pre ++ ["\nConversion complete!",
          "Successfully converted: " ++
            toString (convert_directory fs md dir out).success_count ++ " files",
          "Failed conversions: " ++
            toString (convert_directory fs md dir out).failure_count ++ " files"] := by
  have hcd := convert_directory_eq_loop fs md dir out hdir hmk
  have h := convertDirLoop_spec fs md dir out (fs.listdir dir) 0 0 [] [] [] hconv
  rw [hcd]
  simpa using h

/-- File-system fixture for batch runs: directory `d` lists one good
markdown file, one unreadable one (uppercase extension), and a text file. -/
def fsBatch : FS where
  readFile := fun p => if p = "d/b.MD" then .error (.osError "unreadable") else .ok "hi"
  isdir := fun p => p = "d"
  makedirs := fun _ => .ok ()
  save := fun _ => .ok ()
  listdir := fun p => if p = "d" then ["a.md", "b.MD", "c.txt"] else []

/-- Witness for the batch theorem on the concrete fixture: `a.md` and
`b.MD` are processed (in listing order), `c.txt` is skipped, and the batch
tallies one success and one failure without aborting. -/
theorem convert_directory_batch_witness :
    (convert_directory fsBatch mdOneParagraph "d" none).invoked = ["d/a.md", "d/b.MD"] ∧
      (convert_directory fsBatch mdOneParagraph "d" none).success_count = 1 ∧
      (convert_directory fsBatch mdOneParagraph "d" none).failure_count = 1 ∧
      (convert_directory fsBatch mdOneParagraph "d" none).result = .ok () := by
  have h := convert_directory_batch fsBatch mdOneParagraph "d" none (by decide)
    (fun _ => rfl) (by decide)
  refine ⟨?_, ?_, ?_, h.2.2.2.1⟩
  · rw [h.1]
    decide
  · rw [h.2.1]
    decide
  · rw [h.2.2.1]
    decide

/-- C10: the batch filter tests only the entry's name — nothing in
`convert_directory` checks the entry's file type, as the `FS.listdir`
oracle exposes names alone.  An entry whose name passes the `.md` filter
but whose read fails with an `OSError` (as reading a subdirectory named
`x.md` does, with `IsADirectoryError`, an `OSError` subclass) is still
passed to `convert_md_to_docx`, the error is caught there, and the entry
is counted as a failure instead of being skipped. -/
theorem convert_directory_name_only_filter (fs : FS)
    (md : String → Except PyExn (List Node)) (dir : String) (out : Option String)
    (entry m : String)
    (hdir : fs.isdir dir = true)
    (hmk : ∀ p, fs.makedirs p = .ok ())
    (hls : fs.listdir dir = [entry])
    (hmd : lowerEndsWithMd entry = true)
    (hread : fs.readFile (joinPath dir entry) = .error (.osError m)) :
    (convert_directory fs md dir out).invoked = [joinPath dir entry] ∧
      (convert_directory fs md dir out).success_count = 0 ∧
      (convert_directory fs md dir out).failure_count = 1 ∧
      (convert_directory fs md dir out).result = .ok () ∧
      ("Error processing file " ++ joinPath dir entry ++ ": " ++ m) ∈
        (convert_directory fs md dir out).printed := by
  have hconvr : convert_md_to_docx fs md (joinPath dir entry) out =
      ⟨.ok false, ["Error processing file " ++ joinPath dir entry ++ ": " ++ m], []⟩ := by
    simp only [convert_md_to_docx.eq_def, hread, convFail]
  have hcd := convert_directory_eq_loop fs md dir out hdir hmk
  rw [hcd, hls, convertDirLoop]
  simp only [hmd, if_true, hconvr]
  rw [convertDirLoop]
  exact ⟨rfl, rfl, rfl, rfl, by simp⟩

/-- Witness for the name-only-filter theorem: a directory entry `x.md`
that is itself a directory (its read fails with `IsADirectoryError`) is
invoked and counted as a failure. -/
theorem convert_directory_name_only_filter_witness :
    (convert_directory
        { readFile := fun _ => .error (.osError "Is a directory"),
          isdir := fun p => p = "d",
          makedirs := fun _ => .ok (),
          save := fun _ => .ok (),
          listdir := fun _ => ["x.md"] }
        mdOneParagraph "d" none).invoked = ["d/x.md"] ∧
      (convert_directory
        { readFile := fun _ => .error (.osError "Is a directory"),
          isdir := fun p => p = "d",
          makedirs := fun _ => .ok (),
          save := fun _ => .ok (),
          listdir := fun _ => ["x.md"] }
        mdOneParagraph "d" none).failure_count = 1 := by
  have h := convert_directory_name_only_filter
    { readFile := fun _ => .error (.osError "Is a directory"),
      isdir := fun p => p = "d",
      makedirs := fun _ => .ok (),
      save := fun _ => .ok (),
      listdir := fun _ => ["x.md"] }
    mdOneParagraph "d" none "x.md" "Is a directory"
    (by decide) (fun _ => rfl) rfl (by decide) rfl
  refine ⟨?_, h.2.2.1⟩
  rw [h.1]
  decide
